import Mathlib

/-!
A verification development for the `symbolizer` trace-symbolization tool.

The tool turns raw numeric addresses from an execution trace into symbol
strings via the Windows debugger engine.  This file gives a shallow
embedding of the tool's core pipeline, translated from the C++ sources:

* `symbolize` embeds `DbgEng_t::Symbolize` (the memoizing symbol cache over
  an address-keyed `unordered_map`); the external DbgEng resolver
  (`SymbolizeModoff` / `SymbolizeFull`, dispatched on the trace style) is
  abstracted as a deterministic function `Oracle` from address and style to
  an optional symbol string, which is how the engine behaves within one
  loaded crash-dump session.
* `strtoull16` embeds `std::strtoull(Line, nullptr, 16)` as used by the
  memory-mapped `SymbolizeFile`: C-locale leading whitespace, an optional
  sign, an optional `0x`/`0X` marker, base-16 digits, clamping to
  `ULLONG_MAX` on overflow.  As in the program, it is applied to the
  NUL-terminated *remainder* of the mapping from the current `Line`
  pointer, not to the current line's characters alone: when a line is
  empty or all whitespace, the whitespace skip runs through its line feed
  into the following characters.
* `lineStarts` and `processLines` embed the `strchr`-driven line loop of
  the memory-mapped `SymbolizeFile`: one iteration per line-feed-terminated
  line, each seeing the remainder of the mapping from that line's start;
  characters after the last line feed never get an iteration of their own.
  The skip branch of the C++ loop executes `continue` without advancing the
  `Line` pointer, so consecutive skip iterations only raise `LineNumber`;
  the embedding collapses that spin into raising the line index to `Skip`
  before processing the *same* (first unconsumed) line.
* `runJob`, `runInputs` and `mainModel` embed the batch loop of `main`:
  generated-suffix exclusion, output-path derivation, the overwrite check,
  per-file processing with the shared cache, and the exit status.  The
  filesystem is modelled as association lists of files and directories.
-/

/-- The trace style supported (`enum class TraceStyle_t`). -/
inductive TraceStyle_t
  | Modoff
  | FullSymbol
deriving DecidableEq

/-- The internal cache `std::unordered_map<uint64_t, std::string> Cache_`,
modelled as an association list keyed by the address. -/
abbrev Cache := List (Nat × String)

/-- The external symbol resolver: `SymbolizeModoff` / `SymbolizeFull`
dispatched on the style, i.e. the DbgEng side of `Symbolize`.  Within one
run it is a fixed deterministic function of the address and the style. -/
abbrev Oracle := Nat → TraceStyle_t → Option String

/-- `DbgEng_t::Symbolize`: fast path through `Cache_`, slow path through the
resolver, feeding a successful result into the cache.  Returns the outcome,
the cache after the call, and whether the underlying resolver was invoked. -/
def symbolize (oracle : Oracle) (style : TraceStyle_t) (c : Cache) (addr : Nat) :
    Option String × Cache × Bool :=
  match c.lookup addr with
  | some s => (some s, c, false)
  | none =>
    match oracle addr style with
    | none => (none, c, true)
    | some s => (some s, (addr, s) :: c, true)

/-- One run of resolve calls: the results in order, the log of addresses for
which the underlying resolver was invoked, and the final cache. -/
structure RunLog where
  results : List (Nat × Option String)
  calls : List Nat
  cache : Cache
deriving DecidableEq

/-- A run of the cache over a list of addresses, at the run's fixed style
(`Opts.Style` is fixed for a whole run of the tool). -/
def runResolve (oracle : Oracle) (style : TraceStyle_t) :
    List Nat → Cache → RunLog
  | [], c => ⟨[], [], c⟩
  | a :: rest, c =>
    let step := symbolize oracle style c a
    let tail := runResolve oracle style rest step.2.1
    ⟨(a, step.1) :: tail.results,
     (if step.2.2 then a :: tail.calls else tail.calls),
     tail.cache⟩

/-- Number of occurrences of an address in a call log. -/
def countOcc (a : Nat) : List Nat → Nat
  | [] => 0
  | b :: l => (if b = a then 1 else 0) + countOcc a l

theorem lookup_cons_self (a : Nat) (v : String) (c : Cache) :
    List.lookup a ((a, v) :: c) = some v := by
  simp [List.lookup]

theorem lookup_cons_of_ne (a k : Nat) (v : String) (c : Cache) (h : a ≠ k) :
    List.lookup a ((k, v) :: c) = List.lookup a c := by
  have hb : (a == k) = false := by simpa using h
  simp [List.lookup, hb]

theorem symbolize_hit (oracle : Oracle) (style : TraceStyle_t) (c : Cache)
    (addr : Nat) (s : String) (h : c.lookup addr = some s) :
    symbolize oracle style c addr = (some s, c, false) := by
  simp [symbolize, h]

theorem symbolize_miss_fail (oracle : Oracle) (style : TraceStyle_t) (c : Cache)
    (addr : Nat) (h1 : c.lookup addr = none) (h2 : oracle addr style = none) :
    symbolize oracle style c addr = (none, c, true) := by
  simp [symbolize, h1, h2]

theorem symbolize_miss_ok (oracle : Oracle) (style : TraceStyle_t) (c : Cache)
    (addr : Nat) (s : String) (h1 : c.lookup addr = none)
    (h2 : oracle addr style = some s) :
    symbolize oracle style c addr = (some s, (addr, s) :: c, true) := by
  simp [symbolize, h1, h2]

/-- A cache state is sound when every stored string is what the resolver
returns for that address at the run's style.  Every cache reachable in a run
is sound, because only successful resolver results are stored. -/
def CacheSound (oracle : Oracle) (style : TraceStyle_t) (c : Cache) : Prop :=
  ∀ a v, c.lookup a = some v → oracle a style = some v

theorem cacheSound_nil (oracle : Oracle) (style : TraceStyle_t) :
    CacheSound oracle style [] := by
  intro a v hv
  simp [List.lookup] at hv

theorem cacheSound_symbolize (oracle : Oracle) (style : TraceStyle_t)
    (c : Cache) (addr : Nat) (h : CacheSound oracle style c) :
    CacheSound oracle style (symbolize oracle style c addr).2.1 := by
  cases hl : c.lookup addr with
  | some s => rw [symbolize_hit oracle style c addr s hl]; exact h
  | none =>
    cases ho : oracle addr style with
    | none => rw [symbolize_miss_fail oracle style c addr hl ho]; exact h
    | some s =>
      rw [symbolize_miss_ok oracle style c addr s hl ho]
      intro a v hv
      by_cases hak : a = addr
      · subst hak
        rw [lookup_cons_self] at hv
        cases hv
        exact ho
      · rw [lookup_cons_of_ne a addr s c hak] at hv
        exact h a v hv

theorem runResolve_results_sound (oracle : Oracle) (style : TraceStyle_t) :
    ∀ (addrs : List Nat) (c : Cache), CacheSound oracle style c →
      ∀ a v, (a, some v) ∈ (runResolve oracle style addrs c).results →
        oracle a style = some v := by
  intro addrs
  induction addrs with
  | nil => intro c _ a v hv; simp [runResolve] at hv
  | cons x rest ih =>
    intro c hc a v hv
    have hnext := cacheSound_symbolize oracle style c x hc
    cases hl : c.lookup x with
    | some s =>
      rw [symbolize_hit oracle style c x s hl] at hnext
      simp only [runResolve, symbolize_hit oracle style c x s hl,
        List.mem_cons, Prod.mk.injEq] at hv
      rcases hv with ⟨rfl, hv2⟩ | hv
      · injection hv2 with hv3
        subst hv3
        exact hc _ _ hl
      · exact ih c hc _ _ hv
    | none =>
      cases ho : oracle x style with
      | none =>
        simp only [runResolve, symbolize_miss_fail oracle style c x hl ho,
          List.mem_cons, Prod.mk.injEq] at hv
        rcases hv with ⟨rfl, hv2⟩ | hv
        · exact Option.noConfusion hv2
        · exact ih c hc _ _ hv
      | some s =>
        rw [symbolize_miss_ok oracle style c x s hl ho] at hnext
        simp only [runResolve, symbolize_miss_ok oracle style c x s hl ho,
          List.mem_cons, Prod.mk.injEq] at hv
        rcases hv with ⟨rfl, hv2⟩ | hv
        · injection hv2 with hv3
          subst hv3
          exact ho
        · exact ih ((x, s) :: c) hnext _ _ hv

theorem runResolve_results_const (oracle : Oracle) (style : TraceStyle_t)
    (addr : Nat) (s : String) (hs : oracle addr style = some s) :
    ∀ (addrs : List Nat) (c : Cache), CacheSound oracle style c →
      ∀ r, (addr, r) ∈ (runResolve oracle style addrs c).results →
        r = some s := by
  intro addrs
  induction addrs with
  | nil => intro c _ r hr; simp [runResolve] at hr
  | cons x rest ih =>
    intro c hc r hr
    have hnext := cacheSound_symbolize oracle style c x hc
    cases hl : c.lookup x with
    | some t =>
      rw [symbolize_hit oracle style c x t hl] at hnext
      simp only [runResolve, symbolize_hit oracle style c x t hl,
        List.mem_cons, Prod.mk.injEq] at hr
      rcases hr with ⟨he, hr2⟩ | hr
      · subst he
        have ht : oracle addr style = some t := hc addr t hl
        rw [hs] at ht
        injection ht with ht2
        subst ht2
        exact hr2
      · exact ih c hc _ hr
    | none =>
      cases ho : oracle x style with
      | none =>
        simp only [runResolve, symbolize_miss_fail oracle style c x hl ho,
          List.mem_cons, Prod.mk.injEq] at hr
        rcases hr with ⟨he, hr2⟩ | hr
        · subst he
          rw [hs] at ho
          exact Option.noConfusion ho
        · exact ih c hc _ hr
      | some t =>
        rw [symbolize_miss_ok oracle style c x t hl ho] at hnext
        simp only [runResolve, symbolize_miss_ok oracle style c x t hl ho,
          List.mem_cons, Prod.mk.injEq] at hr
        rcases hr with ⟨he, hr2⟩ | hr
        · subst he
          rw [hs] at ho
          injection ho with ho2
          subst ho2
          exact hr2
        · exact ih ((x, t) :: c) hnext _ hr

theorem runResolve_calls_count (oracle : Oracle) (style : TraceStyle_t)
    (addr : Nat) (s : String) (hs : oracle addr style = some s) :
    ∀ (addrs : List Nat) (c : Cache),
      countOcc addr (runResolve oracle style addrs c).calls ≤
        (if (c.lookup addr).isSome then 0 else 1) := by
  intro addrs
  induction addrs with
  | nil =>
    intro c
    simp only [runResolve, countOcc]
    exact Nat.zero_le _
  | cons x rest ih =>
    intro c
    cases hl : c.lookup x with
    | some t =>
      simp only [runResolve, symbolize_hit oracle style c x t hl]
      exact ih c
    | none =>
      cases ho : oracle x style with
      | none =>
        simp only [runResolve, symbolize_miss_fail oracle style c x hl ho,
          countOcc]
        by_cases hx : x = addr
        · subst hx
          rw [hs] at ho
          cases ho
        · simpa [hx] using ih c
      | some t =>
        simp only [runResolve, symbolize_miss_ok oracle style c x t hl ho,
          countOcc]
        by_cases hx : x = addr
        · subst hx
          have := ih ((x, t) :: c)
          rw [lookup_cons_self] at this
          simp only [Option.isSome_some, if_pos] at this
          simp only [if_pos rfl]
          rw [hl]
          simpa using this
        · have := ih ((x, t) :: c)
          rw [lookup_cons_of_ne addr x t c (fun e => hx e.symm)] at this
          simpa [hx] using this

/-- Claim C1 (cache idempotence): in a run over a list of addresses at the
run's fixed style, for every address that resolved successfully at least
once, every resolve call for that address returned the identical string,
and the underlying resolver was invoked at most once for that address. -/
theorem c1_cache_idempotence (oracle : Oracle) (style : TraceStyle_t)
    (addrs : List Nat) (addr : Nat) (s : String)
    (h : (addr, some s) ∈ (runResolve oracle style addrs []).results) :
    (∀ r, (addr, r) ∈ (runResolve oracle style addrs []).results → r = some s) ∧
      countOcc addr (runResolve oracle style addrs []).calls ≤ 1 := by
  have hnil := cacheSound_nil oracle style
  have hs : oracle addr style = some s :=
    runResolve_results_sound oracle style addrs [] hnil addr s h
  refine ⟨runResolve_results_const oracle style addr s hs addrs [] hnil, ?_⟩
  have := runResolve_calls_count oracle style addr s hs addrs []
  simpa [List.lookup] using this

theorem c1_cache_idempotence_witness :
    (∀ r, (7, r) ∈
        (runResolve (fun _ _ => some "sym+0x7") TraceStyle_t.FullSymbol
          [7, 7, 3] []).results → r = some "sym+0x7") ∧
      countOcc 7 (runResolve (fun _ _ => some "sym+0x7")
        TraceStyle_t.FullSymbol [7, 7, 3] []).calls ≤ 1 :=
  c1_cache_idempotence (fun _ _ => some "sym+0x7") TraceStyle_t.FullSymbol
    [7, 7, 3] 7 "sym+0x7" (by decide)

/-- Claim C2 (no negative caching): when resolution of an address fails, the
cache is left unchanged, and two consecutive resolve calls for that address
both invoke the underlying resolver — the failure is never memoized. -/
theorem c2_no_negative_caching (oracle : Oracle) (style : TraceStyle_t)
    (c : Cache) (addr : Nat) (hfail : oracle addr style = none)
    (hmiss : c.lookup addr = none) :
    symbolize oracle style c addr = (none, c, true) ∧
      symbolize oracle style (symbolize oracle style c addr).2.1 addr =
        (none, c, true) := by
  have h1 := symbolize_miss_fail oracle style c addr hmiss hfail
  exact ⟨h1, by rw [h1]; exact h1⟩

theorem c2_no_negative_caching_witness :
    symbolize (fun _ _ => none) TraceStyle_t.Modoff [] 9 = (none, [], true) ∧
      symbolize (fun _ _ => none) TraceStyle_t.Modoff
        (symbolize (fun _ _ => none) TraceStyle_t.Modoff [] 9).2.1 9 =
        (none, [], true) :=
  c2_no_negative_caching (fun _ _ => none) TraceStyle_t.Modoff [] 9 rfl rfl

/-- Claim C4, counterexample: the cache is keyed by the address alone
(`std::unordered_map<uint64_t, std::string>`), not by the (address, style)
pair.  With a resolver that answers differently per style, a successful
`Modoff` resolution of address 5 makes the subsequent `FullSymbol` call for
address 5 a cache hit: the resolver is not invoked (`false`) and the stored
`Modoff` string is returned. -/
theorem c4_style_key_counterexample :
    symbolize
      (fun _ st => match st with
        | TraceStyle_t.Modoff => some "mod+0x5"
        | TraceStyle_t.FullSymbol => some "full+0x5")
      TraceStyle_t.FullSymbol
      ((symbolize
        (fun _ st => match st with
          | TraceStyle_t.Modoff => some "mod+0x5"
          | TraceStyle_t.FullSymbol => some "full+0x5")
        TraceStyle_t.Modoff [] 5).2.1) 5 =
      (some "mod+0x5", [(5, "mod+0x5")], false) := by
  decide

/-- Claim C4, amended: the memoization key is the address alone.  After any
resolve call for an address succeeds, every later resolve call for that
address — under any style — is a cache hit: it returns the stored string
and does not invoke the underlying resolver. -/
theorem c4_address_key_amended (oracle : Oracle)
    (style1 style2 : TraceStyle_t) (c : Cache) (addr : Nat) (s : String)
    (hsucc : (symbolize oracle style1 c addr).1 = some s) :
    symbolize oracle style2 (symbolize oracle style1 c addr).2.1 addr =
      (some s, (symbolize oracle style1 c addr).2.1, false) := by
  cases hl : c.lookup addr with
  | some t =>
    rw [symbolize_hit oracle style1 c addr t hl] at hsucc ⊢
    injection hsucc with hsucc2
    subst hsucc2
    exact symbolize_hit oracle style2 c addr t hl
  | none =>
    cases ho : oracle addr style1 with
    | none =>
      rw [symbolize_miss_fail oracle style1 c addr hl ho] at hsucc
      exact Option.noConfusion hsucc
    | some t =>
      rw [symbolize_miss_ok oracle style1 c addr t hl ho] at hsucc ⊢
      injection hsucc with hsucc2
      subst hsucc2
      exact symbolize_hit oracle style2 ((addr, t) :: c) addr t
        (lookup_cons_self addr t c)

theorem c4_address_key_amended_witness :
    symbolize (fun _ _ => some "a+0x1") TraceStyle_t.FullSymbol
      ((symbolize (fun _ _ => some "a+0x1") TraceStyle_t.Modoff [] 5).2.1) 5 =
      (some "a+0x1",
        (symbolize (fun _ _ => some "a+0x1") TraceStyle_t.Modoff [] 5).2.1,
        false) :=
  c4_address_key_amended (fun _ _ => some "a+0x1") TraceStyle_t.Modoff
    TraceStyle_t.FullSymbol [] 5 "a+0x1" (by decide)

/-- C-locale `isspace`: space (32) and the control characters 9 to 13
(tab, line feed, vertical tab, form feed, carriage return). -/
def isSpaceC (c : Char) : Bool :=
  c.toNat == 32 || (9 ≤ c.toNat && c.toNat ≤ 13)

/-- Base-16 digit as accepted by `strtoull`: 0-9 (48-57), a-f (97-102),
A-F (65-70). -/
def isHexDigitC (c : Char) : Bool :=
  (48 ≤ c.toNat && c.toNat ≤ 57) ||
    (97 ≤ c.toNat && c.toNat ≤ 102) ||
    (65 ≤ c.toNat && c.toNat ≤ 70)

/-- Numeric value of a base-16 digit character. -/
def hexDigitVal (c : Char) : Nat :=
  if c.toNat ≤ 57 then c.toNat - 48
  else if 97 ≤ c.toNat then c.toNat - 87
  else c.toNat - 55

/-- `ULLONG_MAX + 1`: addresses are 64-bit unsigned integers. -/
def U64SIZE : Nat := 2 ^ 64

/-- One digit step of the exact base-16 accumulation. -/
def hexAccum (acc : Nat) (c : Char) : Nat :=
  16 * acc + hexDigitVal c

/-- One digit step of `strtoull`'s accumulation, which clamps to
`ULLONG_MAX` on overflow (and stays there, as `strtoull` does). -/
def clampStep (acc : Nat) (c : Char) : Nat :=
  if hexAccum acc c < U64SIZE then hexAccum acc c else U64SIZE - 1

/-- Exact numeric value of a list of base-16 digit characters. -/
def hexVal (l : List Char) : Nat :=
  l.foldl hexAccum 0

/-- The optional `0x` / `0X` marker consumed by `strtoull` in base 16: it is
consumed only when followed by a base-16 digit. -/
def stripHexMarker (l : List Char) : List Char :=
  match l with
  | c0 :: c1 :: c2 :: rest =>
    if c0 = '0' ∧ (c1 = 'x' ∨ c1 = 'X') ∧ isHexDigitC c2 = true then c2 :: rest
    else c0 :: c1 :: c2 :: rest
  | l2 => l2

/-- `std::strtoull(s, nullptr, 16)` on the characters of one line: skip
C-locale whitespace, an optional sign, an optional `0x`/`0X` marker, then
accumulate base-16 digits with clamping at `ULLONG_MAX`; a leading minus
negates the value modulo 2^64.  No digits at all yields 0. -/
def strtoull16 (l : List Char) : Nat :=
  let l1 := l.dropWhile isSpaceC
  let l2 := if l1.head? = some '+' ∨ l1.head? = some '-' then l1.tail else l1
  let digits := (stripHexMarker l2).takeWhile isHexDigitC
  let v := digits.foldl clampStep 0
  if l1.head? = some '-' then (U64SIZE - v % U64SIZE) % U64SIZE else v

theorem hexDigit_toNat_bounds (c : Char) (h : isHexDigitC c = true) :
    (48 ≤ c.toNat ∧ c.toNat ≤ 57) ∨ (97 ≤ c.toNat ∧ c.toNat ≤ 102) ∨
      (65 ≤ c.toNat ∧ c.toNat ≤ 70) := by
  simp only [isHexDigitC, Bool.or_eq_true, Bool.and_eq_true,
    decide_eq_true_eq] at h
  tauto

theorem charNeOfToNat (a b : Char) (h : a.toNat ≠ b.toNat) : a ≠ b :=
  fun e => h (by rw [e])

theorem hexNotSpace (c : Char) (h : isHexDigitC c = true) :
    isSpaceC c = false := by
  have hb := hexDigit_toNat_bounds c h
  simp only [isSpaceC, Bool.or_eq_false_iff, Bool.and_eq_false_iff]
  constructor
  · simp only [beq_eq_false_iff_ne, ne_eq]
    omega
  · simp only [decide_eq_false_iff_not]
    omega

theorem hexNeSignPlus (c : Char) (h : isHexDigitC c = true) : c ≠ '+' := by
  apply charNeOfToNat
  have hb := hexDigit_toNat_bounds c h
  rw [show Char.toNat '+' = 43 from rfl]
  omega

theorem hexNeSignMinus (c : Char) (h : isHexDigitC c = true) : c ≠ '-' := by
  apply charNeOfToNat
  have hb := hexDigit_toNat_bounds c h
  rw [show Char.toNat '-' = 45 from rfl]
  omega

theorem hexNeMarkerLower (c : Char) (h : isHexDigitC c = true) : c ≠ 'x' := by
  apply charNeOfToNat
  have hb := hexDigit_toNat_bounds c h
  rw [show Char.toNat 'x' = 120 from rfl]
  omega

theorem hexNeMarkerUpper (c : Char) (h : isHexDigitC c = true) : c ≠ 'X' := by
  apply charNeOfToNat
  have hb := hexDigit_toNat_bounds c h
  rw [show Char.toNat 'X' = 88 from rfl]
  omega

theorem stripHexMarker_eq_self (l : List Char)
    (h : ∀ c0 c1, l.head? = some c0 → l.tail.head? = some c1 →
      ¬(c0 = '0' ∧ (c1 = 'x' ∨ c1 = 'X'))) :
    stripHexMarker l = l := by
  match l with
  | [] => rfl
  | [c0] => rfl
  | [c0, c1] => rfl
  | c0 :: c1 :: c2 :: r =>
    simp only [stripHexMarker]
    rw [if_neg]
    intro hcon
    exact h c0 c1 rfl rfl ⟨hcon.1, hcon.2.1⟩

theorem takeWhileAppendAll (p : Char → Bool) (l r : List Char)
    (hl : ∀ c ∈ l, p c = true) (hr : ∀ c, r.head? = some c → p c = false) :
    (l ++ r).takeWhile p = l := by
  induction l with
  | nil =>
    cases r with
    | nil => rfl
    | cons c rt => simp [List.takeWhile, hr c rfl]
  | cons c lt ih =>
    have hc : p c = true := hl c (by simp)
    simp only [List.cons_append, List.takeWhile, hc]
    rw [show lt.append r = lt ++ r from rfl,
      ih (fun x hx => hl x (by simp [hx]))]

theorem foldlHexAccumGe (l : List Char) :
    ∀ acc : Nat, acc ≤ l.foldl hexAccum acc := by
  induction l with
  | nil => intro acc; simp
  | cons c t ih =>
    intro acc
    rw [List.foldl_cons]
    have h1 : acc ≤ hexAccum acc c := by
      simp only [hexAccum]
      omega
    exact le_trans h1 (ih _)

theorem foldlClampEq (l : List Char) :
    ∀ acc : Nat, l.foldl hexAccum acc < U64SIZE →
      l.foldl clampStep acc = l.foldl hexAccum acc := by
  induction l with
  | nil => intro acc _; rfl
  | cons c t ih =>
    intro acc h
    rw [List.foldl_cons] at h ⊢
    rw [List.foldl_cons]
    have hstep : hexAccum acc c < U64SIZE :=
      lt_of_le_of_lt (foldlHexAccumGe t (hexAccum acc c)) h
    rw [show clampStep acc c = hexAccum acc c from by
      simp [clampStep, hstep]]
    exact ih _ h

/-- Claim C5: the memory-mapped processor parses the leading numeric
literal in base 16 (`std::strtoull(Line, nullptr, 16)`): a line starting
with base-16 digits and carrying no base marker parses to the hexadecimal
value of those digits. -/
theorem c5_parse_base16 (ds rest : List Char)
    (hne : ds ≠ [])
    (hhex : ∀ c ∈ ds, isHexDigitC c = true)
    (hrest : ∀ c, rest.head? = some c →
      isHexDigitC c = false ∧ c ≠ 'x' ∧ c ≠ 'X')
    (hlt : hexVal ds < U64SIZE) :
    strtoull16 (ds ++ rest) = hexVal ds := by
  obtain ⟨d, ds2, rfl⟩ : ∃ d ds2, ds = d :: ds2 := by
    cases ds with
    | nil => exact absurd rfl hne
    | cons a b => exact ⟨a, b, rfl⟩
  have hd : isHexDigitC d = true := hhex d (by simp)
  have hdrop : (d :: (ds2 ++ rest)).dropWhile isSpaceC = d :: (ds2 ++ rest) := by
    simp [List.dropWhile, hexNotSpace d hd]
  have hsign : ¬((d :: (ds2 ++ rest)).head? = some '+' ∨
      (d :: (ds2 ++ rest)).head? = some '-') := by
    intro hcon
    rcases hcon with hcon | hcon
    · exact hexNeSignPlus d hd (by injection hcon)
    · exact hexNeSignMinus d hd (by injection hcon)
  have hminus : ¬(d :: (ds2 ++ rest)).head? = some '-' := by
    intro hcon
    exact hexNeSignMinus d hd (by injection hcon)
  have hstrip : stripHexMarker (d :: (ds2 ++ rest)) = d :: (ds2 ++ rest) := by
    apply stripHexMarker_eq_self
    intro c0 c1 h0 h1 hcon
    have hc0 : c0 = d := by injection h0 with h0x; exact h0x.symm
    subst hc0
    cases ds2 with
    | nil =>
      simp only [List.nil_append, List.tail_cons] at h1
      rcases hcon.2 with hx | hx
      · exact (hrest c1 h1).2.1 hx
      · exact (hrest c1 h1).2.2 hx
    | cons e es =>
      simp only [List.cons_append, List.tail_cons, List.head?_cons] at h1
      have he : isHexDigitC e = true := hhex e (by simp)
      injection h1 with h1x
      subst h1x
      rcases hcon.2 with hx | hx
      · exact hexNeMarkerLower e he hx
      · exact hexNeMarkerUpper e he hx
  have htake : ((d :: ds2) ++ rest).takeWhile isHexDigitC = d :: ds2 :=
    takeWhileAppendAll isHexDigitC (d :: ds2) rest hhex
      (fun c hc => (hrest c hc).1)
  simp only [strtoull16, List.cons_append] at *
  rw [hdrop, if_neg hsign, hstrip, htake, if_neg hminus]
  exact foldlClampEq (d :: ds2) 0 hlt

theorem c5_parse_base16_witness :
    strtoull16 (['1', '0'] ++ []) = hexVal ['1', '0'] ∧ hexVal ['1', '0'] = 16 :=
  ⟨c5_parse_base16 ['1', '0'] [] (by decide) (by decide)
      (fun c h => Option.noConfusion h) (by decide),
    by decide⟩

/-- The command line options `struct Opts_t` (paths as plain strings). -/
structure Opts_t where
  Input : String
  Output : String
  CrashdumpPath : String
  Skip : Nat
  Max : Nat
  Style : TraceStyle_t
  Overwrite : Bool
  LineNumbers : Bool
deriving DecidableEq

/-- Result of the per-file line loop in the memory-mapped `SymbolizeFile`:
the lines written to the output sink, the local counters
`NumberSymbolizedLines` and `NumberFailedSymbolization`, and the cache
after the file. -/
structure ProcOut where
  out : List String
  syms : Nat
  fails : Nat
  cache : Cache
deriving DecidableEq

/-- The optional line-number marker written before a symbolized line. -/
def lineTag (n : Nat) : String :=
  "l" ++ toString n ++ ": "

/-- The per-line loop of the memory-mapped `SymbolizeFile`, over the list
of `Line` pointers of the line-feed-terminated lines (each entry is the
remainder of the mapping from that line's start, see `lineStarts`).  Each
iteration: break when `Max` is positive and `NumberSymbolizedLines`
reached it; parse from the line start with base-16 `strtoull` — which sees
the whole remainder, as the program does; resolve through the cache; on
failure count it and continue with the next line; on success write the
(optionally tagged) string and count it.

The C++ skip branch (`if (LineNumber < Opts.Skip) continue;`) does not
advance the `Line` pointer, only `LineNumber`; those spin iterations leave
the counters, the cache and the pointer untouched, so they collapse into
raising the line index to `Skip` before the same unconsumed line is
processed, which is what `Nat.max lineNumber cfg.Skip` does here. -/
def processLines (oracle : Oracle) (cfg : Opts_t) :
    List (List Char) → Nat → Nat → Nat → Cache → ProcOut
  | [], _, syms, fails, c => ⟨[], syms, fails, c⟩
  | l :: rest, lineNumber, syms, fails, c =>
    if 0 < cfg.Max ∧ cfg.Max ≤ syms then ⟨[], syms, fails, c⟩
    else
      let ln := Nat.max lineNumber cfg.Skip
      match symbolize oracle cfg.Style c (strtoull16 l) with
      | (none, c2, _) =>
        processLines oracle cfg rest (ln + 1) syms (fails + 1) c2
      | (some s, c2, _) =>
        let r := processLines oracle cfg rest (ln + 1) (syms + 1) fails c2
        ⟨((if cfg.LineNumbers then lineTag ln else "") ++ s) :: r.out,
          r.syms, r.fails, r.cache⟩

/-- The `strchr`-driven line scan of the memory-mapped `SymbolizeFile`:
for every line-feed-terminated line it yields the remainder of the mapping
from that line's start — the value of the `Line` pointer at that
iteration, which is what `strtoull` is applied to.  Characters after the
last line feed never start a line of their own: the loop ends when
`strchr` finds no further line feed.  The first argument accumulates the
characters of the line currently being scanned. -/
def lineStartsAux : List Char → List Char → List (List Char)
  | _, [] => []
  | acc, c :: rest =>
    if c = '\n' then (acc ++ c :: rest) :: lineStartsAux [] rest
    else lineStartsAux (acc ++ [c]) rest

/-- The `Line` pointers of a mapped file's characters: one entry per
line-feed-terminated line, each the suffix of the content from that line's
start. -/
def lineStarts (content : List Char) : List (List Char) :=
  lineStartsAux [] content

/-- The memory-mapped `SymbolizeFile` on one input: `none` models an input
that cannot be opened or mapped (the function returns `false` before the
loop); on mapped content the loop runs and the function returns `true`. -/
def symbolizeFileM (oracle : Oracle) (cfg : Opts_t) (cache : Cache) :
    Option String → Bool × ProcOut
  | none => (false, ⟨[], 0, 0, cache⟩)
  | some content =>
    (true, processLines oracle cfg (lineStarts content.data) 0 0 0 cache)

/-- The bytes written to an output file: each emitted line followed by a
line feed, in order. -/
def renderOut (ls : List String) : String :=
  ls.foldl (fun acc l => acc ++ l ++ "\n") ""

/-- Claim C3, code-bug evidence at the failing input: a two-line trace
(`31`, `32`), `skip = 1`, `max = 20000000`, every resolution succeeding.
The skip branch of the memory-mapped loop never advances the line pointer,
so the processor symbolizes both file lines — not `min(max, N - skip) = 1`
— and the first processed line is the file's *first* line (address 0x31 =
49), merely labeled with index 1. -/
theorem c3_skip_windowing_code_eval :
    processLines (fun a _ => some (toString a))
        ⟨"", "", "", 1, 20000000, TraceStyle_t.FullSymbol, false, true⟩
        (lineStarts ("31\n32\n").data) 0 0 0 [] =
      ⟨["l1: 49", "l2: 50"], 2, 0, [(50, "50"), (49, "49")]⟩ ∧
      (processLines (fun a _ => some (toString a))
          ⟨"", "", "", 1, 20000000, TraceStyle_t.FullSymbol, false, true⟩
          (lineStarts ("31\n32\n").data) 0 0 0 []).syms ≠
        min 20000000 (2 - 1) := by
  decide

/-- Claim C7: a line whose address fails to resolve contributes nothing to
the output sink — the processing of the remaining lines is exactly the
whole result — while the failed-line counter is incremented and processing
continues with the next line; and a resolution failure is never fatal to
the file: on any opened, mapped input, per-file processing completes
successfully (`SymbolizeFile` returns true). -/
theorem c7_failed_line_nonfatal (oracle : Oracle) (cfg : Opts_t)
    (l : List Char) (rest : List (List Char)) (lineNumber syms fails : Nat)
    (c c2 : Cache) (b : Bool) (content : String)
    (hmax : ¬(0 < cfg.Max ∧ cfg.Max ≤ syms))
    (hfail : symbolize oracle cfg.Style c (strtoull16 l) = (none, c2, b)) :
    processLines oracle cfg (l :: rest) lineNumber syms fails c =
      processLines oracle cfg rest (Nat.max lineNumber cfg.Skip + 1) syms
        (fails + 1) c2 ∧
      (symbolizeFileM oracle cfg c (some content)).1 = true := by
  constructor
  · simp only [processLines]
    rw [if_neg hmax, hfail]
  · rfl

theorem c7_failed_line_nonfatal_witness :
    processLines (fun _ _ => none)
        ⟨"", "", "", 0, 20000000, TraceStyle_t.FullSymbol, false, false⟩
        [['1']] 0 0 0 [] =
      processLines (fun _ _ => none)
        ⟨"", "", "", 0, 20000000, TraceStyle_t.FullSymbol, false, false⟩
        [] (Nat.max 0 0 + 1) 0 (0 + 1) [] ∧
      (symbolizeFileM (fun _ _ => none)
        ⟨"", "", "", 0, 20000000, TraceStyle_t.FullSymbol, false, false⟩
        [] (some "x")).1 = true :=
  c7_failed_line_nonfatal (fun _ _ => none)
    ⟨"", "", "", 0, 20000000, TraceStyle_t.FullSymbol, false, false⟩
    ['1'] [] 0 0 0 [] [] true "x" (by decide) (by decide)

theorem lineStartsAux_no_lf (t : List Char) :
    ∀ acc, (∀ c ∈ t, c ≠ '\n') → lineStartsAux acc t = [] := by
  induction t with
  | nil => intro acc _; rfl
  | cons c r ih =>
    intro acc h
    have hc : c ≠ '\n' := h c (by simp)
    simp only [lineStartsAux, if_neg hc]
    exact ih _ (fun x hx => h x (by simp [hx]))

theorem lineStartsAux_append (s : List Char) :
    ∀ (acc t : List Char), (∀ c ∈ t, c ≠ '\n') →
      lineStartsAux acc (s ++ t) =
        (lineStartsAux acc s).map (fun e => e ++ t) := by
  induction s with
  | nil =>
    intro acc t h
    simp only [List.nil_append]
    rw [lineStartsAux_no_lf t acc h]
    rfl
  | cons c r ih =>
    intro acc t h
    simp only [List.cons_append, lineStartsAux]
    by_cases hc : c = '\n'
    · rw [if_pos hc, if_pos hc, List.map_cons,
        show r.append t = r ++ t from rfl, ih [] t h]
      simp [List.append_assoc]
    · rw [if_neg hc, if_neg hc, show r.append t = r ++ t from rfl,
        ih (acc ++ [c]) t h]

/-- With no `max` cap (`Max = 0` disables it in the memory-mapped
processor), every iteration of the line loop increments exactly one of the
two counters, so their total grows by exactly the number of scanned
lines. -/
theorem processLines_total (oracle : Oracle) (cfg : Opts_t)
    (hmax : cfg.Max = 0) :
    ∀ (entries : List (List Char)) (ln syms fails : Nat) (c : Cache),
      (processLines oracle cfg entries ln syms fails c).syms +
        (processLines oracle cfg entries ln syms fails c).fails =
        syms + fails + entries.length := by
  intro entries
  induction entries with
  | nil => intro ln syms fails c; simp [processLines]
  | cons l rest ih =>
    intro ln syms fails c
    have hcond : ¬(0 < cfg.Max ∧ cfg.Max ≤ syms) := by
      rw [hmax]
      omega
    simp only [processLines, List.length_cons]
    rw [if_neg hcond]
    rcases hsym : symbolize oracle cfg.Style c (strtoull16 l) with ⟨r, c2, b⟩
    cases r with
    | none =>
      dsimp only
      have h2 := ih (Nat.max ln cfg.Skip + 1) syms (fails + 1) c2
      omega
    | some str =>
      dsimp only
      have h2 := ih (Nat.max ln cfg.Skip + 1) (syms + 1) fails c2
      omega

/-- Claim C10, counterexample to the claim as stated: trailing characters
after the last line feed are not invisible to the per-file result, because
`strtoull` is applied to the remainder of the mapping and skips whitespace
*including* line feeds.  On content `"\n"` — one empty terminated line —
the single iteration parses address 0 and (here) fails; on `"\n31"` the
same iteration's parse runs through the line feed into the trailing chunk,
reads 0x31 and succeeds: the trailing chunk changes the output and both
counters. -/
theorem c10_trailing_chunk_counterexample :
    (symbolizeFileM (fun a _ => if a = 0 then none else some (toString a))
        ⟨"", "", "", 0, 20000000, TraceStyle_t.FullSymbol, false, false⟩ []
        (some "\n31")).2 ≠
      (symbolizeFileM (fun a _ => if a = 0 then none else some (toString a))
        ⟨"", "", "", 0, 20000000, TraceStyle_t.FullSymbol, false, false⟩ []
        (some "\n")).2 := by
  decide

/-- Claim C10, amended: an unterminated final line is never *scanned* as a
line of its own.  Every `Line` pointer of the extended content is a `Line`
pointer of the original content with the trailing chunk appended — the
chunk starts no iteration, so the scanned-line count is unchanged — and,
with no `max` cap, the symbolized plus failed counters account for exactly
the line-feed-terminated lines, with and without the trailing chunk: the
chunk contributes no output line and no counter increment of its own.  (As
the counterexample shows, its characters can still change *how* a final
all-whitespace terminated line parses, moving that line between the two
counters.) -/
theorem c10_unterminated_line (s t : List Char) (oracle : Oracle)
    (cfg : Opts_t) (cache : Cache) (h : ∀ c ∈ t, c ≠ '\n')
    (hmax : cfg.Max = 0) :
    lineStarts (s ++ t) = (lineStarts s).map (fun e => e ++ t) ∧
      (symbolizeFileM oracle cfg cache (some (String.mk (s ++ t)))).2.syms +
        (symbolizeFileM oracle cfg cache (some (String.mk (s ++ t)))).2.fails =
        (lineStarts s).length ∧
      (symbolizeFileM oracle cfg cache (some (String.mk s))).2.syms +
        (symbolizeFileM oracle cfg cache (some (String.mk s))).2.fails =
        (lineStarts s).length := by
  have h1 : lineStarts (s ++ t) = (lineStarts s).map (fun e => e ++ t) :=
    lineStartsAux_append s [] t h
  refine ⟨h1, ?_, ?_⟩
  · simp only [symbolizeFileM]
    rw [processLines_total oracle cfg hmax, h1, List.length_map]
    omega
  · simp only [symbolizeFileM]
    rw [processLines_total oracle cfg hmax]
    omega

theorem c10_unterminated_line_witness :
    lineStarts (['3', '1', '\n'] ++ ['3', '2']) =
        (lineStarts ['3', '1', '\n']).map (fun e => e ++ ['3', '2']) ∧
      (symbolizeFileM (fun _ _ => some "a+0x0")
          ⟨"", "", "", 0, 0, TraceStyle_t.FullSymbol, false, false⟩ []
          (some (String.mk (['3', '1', '\n'] ++ ['3', '2'])))).2.syms +
        (symbolizeFileM (fun _ _ => some "a+0x0")
          ⟨"", "", "", 0, 0, TraceStyle_t.FullSymbol, false, false⟩ []
          (some (String.mk (['3', '1', '\n'] ++ ['3', '2'])))).2.fails =
        (lineStarts ['3', '1', '\n']).length ∧
      (symbolizeFileM (fun _ _ => some "a+0x0")
          ⟨"", "", "", 0, 0, TraceStyle_t.FullSymbol, false, false⟩ []
          (some (String.mk ['3', '1', '\n']))).2.syms +
        (symbolizeFileM (fun _ _ => some "a+0x0")
          ⟨"", "", "", 0, 0, TraceStyle_t.FullSymbol, false, false⟩ []
          (some (String.mk ['3', '1', '\n']))).2.fails =
        (lineStarts ['3', '1', '\n']).length :=
  c10_unterminated_line ['3', '1', '\n'] ['3', '2'] (fun _ _ => some "a+0x0")
    ⟨"", "", "", 0, 0, TraceStyle_t.FullSymbol, false, false⟩ [] (by decide)
    rfl

/-- The filesystem the batch loop touches: regular files (path to content)
and directories (path to the entry names inside). -/
structure Fs where
  files : List (String × String)
  dirs : List (String × List String)
deriving DecidableEq

/-- Reading a file's content (`CreateFileA` + mapping succeed iff some). -/
def fsRead (fs : Fs) (p : String) : Option String :=
  fs.files.lookup p

/-- `fs::is_regular_file`. -/
def fsExistsFile (fs : Fs) (p : String) : Bool :=
  (fs.files.lookup p).isSome

/-- `fs::is_directory`. -/
def fsIsDir (fs : Fs) (p : String) : Bool :=
  (fs.dirs.lookup p).isSome

/-- `fs::exists`. -/
def fsExists (fs : Fs) (p : String) : Bool :=
  fsExistsFile fs p || fsIsDir fs p

/-- Creating or truncating and writing an output file
(`fmt::output_file` then the per-line writes): the path now maps to
exactly the newly written content. -/
def fsWrite (fs : Fs) (p v : String) : Fs :=
  ⟨(p, v) :: fs.files.eraseP (fun kv => kv.1 == p), fs.dirs⟩

/-- `fs::directory_iterator`: the full paths of a directory's entries. -/
def dirEntries (fs : Fs) (p : String) : List String :=
  ((fs.dirs.lookup p).getD []).map (fun name => p ++ "/" ++ name)

/-- `fs::path::filename`: the last path component (the characters after the
last separator). -/
def filenameOf (p : String) : String :=
  String.mk ((p.data.reverse.takeWhile (fun c => c ≠ '/')).reverse)

/-- `std::string::ends_with`. -/
def strEndsWith (s post : String) : Bool :=
  post.data.isSuffixOf s.data

/-- The booleans `main` computes once before the job loop. -/
structure Flags where
  InputIsDirectory : Bool
  OutputIsDirectory : Bool
  OutputDoesntExist : Bool
  OutputIsFile : Bool
  OutputIsStdout : Bool
deriving DecidableEq

/-- Output-path derivation inside the job loop: a directory output gets
`<input filename>.symbolizer` appended; otherwise a nonexistent or regular
file output is used verbatim; otherwise the path stays empty (stdout). -/
def deriveOutput (opts : Opts_t) (flags : Flags) (input : String) : String :=
  if flags.OutputIsDirectory = true then
    opts.Output ++ "/" ++ (filenameOf input ++ ".symbolizer")
  else if flags.OutputDoesntExist = true ∨ flags.OutputIsFile = true then
    opts.Output
  else
    ""

/-- How one iteration of the job loop ended. -/
inductive JobOutcome
  | skippedSuffix
  | skippedExists
  | processed
  | failed
deriving DecidableEq

/-- State after one iteration of the job loop: the filesystem, the shared
cache, this file's counter contributions, and how the iteration ended. -/
structure JobResult where
  fs : Fs
  cache : Cache
  syms : Nat
  fails : Nat
  outcome : JobOutcome
deriving DecidableEq

/-- One iteration of the job loop in `main`: skip inputs already carrying
the generated `.symbolizer` suffix; derive the output path; when the output
is not stdout, already exists and `--overwrite` is absent, report and skip
the job (`continue`); otherwise run `SymbolizeFile`, which writes the
output file unless the output is stdout. -/
def runJob (oracle : Oracle) (opts : Opts_t) (flags : Flags) (fs : Fs)
    (cache : Cache) (input : String) : JobResult :=
  if strEndsWith (filenameOf input) ".symbolizer" = true then
    ⟨fs, cache, 0, 0, JobOutcome.skippedSuffix⟩
  else
    let out := deriveOutput opts flags input
    if flags.OutputIsStdout = false ∧ fsExists fs out = true ∧
        opts.Overwrite = false then
      ⟨fs, cache, 0, 0, JobOutcome.skippedExists⟩
    else
      match symbolizeFileM oracle opts cache (fsRead fs input) with
      | (false, _) => ⟨fs, cache, 0, 0, JobOutcome.failed⟩
      | (true, r) =>
        let fs2 := if out = "" then fs else fsWrite fs out (renderOut r.out)
        ⟨fs2, r.cache, r.syms, r.fails, JobOutcome.processed⟩

/-- Run-wide accumulation (`Stats_t` plus the evolving filesystem/cache). -/
structure BatchResult where
  fs : Fs
  cache : Cache
  syms : Nat
  fails : Nat
  nfiles : Nat
deriving DecidableEq

/-- The job loop of `main`: sequential, folding each job's counters into
the run stats; a fatal per-file failure (`SymbolizeFile` returning false)
breaks out of the loop; `Stats.NumberFiles` counts processed files only. -/
def runInputs (oracle : Oracle) (opts : Opts_t) (flags : Flags) :
    List String → Fs → Cache → Nat → Nat → Nat → BatchResult
  | [], fs, cache, s, f, n => ⟨fs, cache, s, f, n⟩
  | i :: rest, fs, cache, s, f, n =>
    let jr := runJob oracle opts flags fs cache i
    match jr.outcome with
    | JobOutcome.failed => ⟨jr.fs, jr.cache, s + jr.syms, f + jr.fails, n⟩
    | JobOutcome.processed =>
      runInputs oracle opts flags rest jr.fs jr.cache (s + jr.syms)
        (f + jr.fails) (n + 1)
    | _ =>
      runInputs oracle opts flags rest jr.fs jr.cache (s + jr.syms)
        (f + jr.fails) n

/-- What a whole run produces: the process exit status and the final
filesystem and stats. -/
structure RunOut where
  exitCode : Nat
  fs : Fs
  syms : Nat
  fails : Nat
  nfiles : Nat
deriving DecidableEq

/-- `main` after command-line parsing: compute the flags, initialize the
debugger (`EXIT_FAILURE` = 1 when that fails), enumerate the inputs
(directory entries or the single input), run the job loop, and return
`EXIT_SUCCESS` = 0.  When the input is a directory and the output is
neither a directory nor stdout, the program only prints a diagnostic and
falls through to the loop (the code has no early return there), which is
why this model has no branch for that configuration error. -/
def mainModel (oracle : Oracle) (opts : Opts_t) (fs : Fs) (initOk : Bool) :
    RunOut :=
  let flags : Flags :=
    ⟨fsIsDir fs opts.Input, fsIsDir fs opts.Output,
      !(fsExists fs opts.Output), fsExistsFile fs opts.Output,
      opts.Output == ""⟩
  if initOk = false then ⟨1, fs, 0, 0, 0⟩
  else
    let inputs :=
      if flags.InputIsDirectory = true then dirEntries fs opts.Input
      else [opts.Input]
    let br := runInputs oracle opts flags inputs fs [] 0 0 0
    ⟨0, br.fs, br.syms, br.fails, br.nfiles⟩

theorem fsWrite_lookup_self (fs : Fs) (p v : String) :
    (fsWrite fs p v).files.lookup p = some v := by
  simp [fsWrite, List.lookup]

/-- Claim C8 (overwrite policy): for a job whose derived output path
already exists (and is not stdout), with `--overwrite` absent the whole
filesystem — in particular the existing output file — is left unchanged
and the job is reported as skipped, contributing nothing to the stats;
with `--overwrite` present the output path afterwards holds exactly the
newly generated content rendered from this run's processing. -/
theorem c8_overwrite_policy (oracle : Oracle) (inp outp dump : String)
    (sk mx : Nat) (style : TraceStyle_t) (ln : Bool) (flags : Flags)
    (fs : Fs) (cache : Cache) (input : String)
    (hsuffix : strEndsWith (filenameOf input) ".symbolizer" = false)
    (hstdout : flags.OutputIsStdout = false)
    (hout : deriveOutput ⟨inp, outp, dump, sk, mx, style, false, ln⟩ flags
      input ≠ "")
    (hexists : fsExists fs
      (deriveOutput ⟨inp, outp, dump, sk, mx, style, false, ln⟩ flags input) =
      true) :
    runJob oracle ⟨inp, outp, dump, sk, mx, style, false, ln⟩ flags fs cache
        input = ⟨fs, cache, 0, 0, JobOutcome.skippedExists⟩ ∧
      ∀ content, fsRead fs input = some content →
        (runJob oracle ⟨inp, outp, dump, sk, mx, style, true, ln⟩ flags fs
            cache input).fs.files.lookup
          (deriveOutput ⟨inp, outp, dump, sk, mx, style, true, ln⟩ flags
            input) =
        some (renderOut (processLines oracle
          ⟨inp, outp, dump, sk, mx, style, true, ln⟩
          (lineStarts content.data) 0 0 0 cache).out) := by
  constructor
  · simp only [runJob]
    rw [if_neg (by simp [hsuffix])]
    rw [if_pos (by exact ⟨hstdout, hexists, by trivial⟩)]
  · intro content hcontent
    have houtT : deriveOutput ⟨inp, outp, dump, sk, mx, style, true, ln⟩
        flags input ≠ "" := hout
    simp only [runJob]
    rw [if_neg (by simp [hsuffix])]
    rw [if_neg (by intro hcon; simpa using hcon.2.2)]
    rw [hcontent]
    simp only [symbolizeFileM]
    rw [if_neg houtT]
    exact fsWrite_lookup_self fs _ _

theorem c8_overwrite_policy_witness :
    runJob (fun _ _ => some "a+0x0")
        ⟨"in.trace", "out.txt", "d", 0, 20000000, TraceStyle_t.FullSymbol,
          false, false⟩
        ⟨false, false, false, true, false⟩
        ⟨[("out.txt", "old"), ("in.trace", "10\n")], []⟩ [] "in.trace" =
      ⟨⟨[("out.txt", "old"), ("in.trace", "10\n")], []⟩, [], 0, 0,
        JobOutcome.skippedExists⟩ ∧
      (runJob (fun _ _ => some "a+0x0")
          ⟨"in.trace", "out.txt", "d", 0, 20000000, TraceStyle_t.FullSymbol,
            true, false⟩
          ⟨false, false, false, true, false⟩
          ⟨[("out.txt", "old"), ("in.trace", "10\n")], []⟩ []
          "in.trace").fs.files.lookup
        (deriveOutput
          ⟨"in.trace", "out.txt", "d", 0, 20000000, TraceStyle_t.FullSymbol,
            true, false⟩
          ⟨false, false, false, true, false⟩ "in.trace") =
      some (renderOut (processLines (fun _ _ => some "a+0x0")
        ⟨"in.trace", "out.txt", "d", 0, 20000000, TraceStyle_t.FullSymbol,
          true, false⟩
        (lineStarts ("10\n").data) 0 0 0 []).out) :=
  ⟨(c8_overwrite_policy (fun _ _ => some "a+0x0") "in.trace" "out.txt" "d" 0
      20000000 TraceStyle_t.FullSymbol false
      ⟨false, false, false, true, false⟩
      ⟨[("out.txt", "old"), ("in.trace", "10\n")], []⟩ [] "in.trace"
      (by decide) rfl (by decide) (by decide)).1,
    (c8_overwrite_policy (fun _ _ => some "a+0x0") "in.trace" "out.txt" "d" 0
      20000000 TraceStyle_t.FullSymbol false
      ⟨false, false, false, true, false⟩
      ⟨[("out.txt", "old"), ("in.trace", "10\n")], []⟩ [] "in.trace"
      (by decide) rfl (by decide) (by decide)).2 "10\n" rfl⟩

/-- Claim C9, code-bug evidence.  First conjunct, the failing input: the
input is a directory, the output an existing regular file and the debugger
initializes — a configuration error by the claim — yet `main` only prints a
diagnostic, keeps going and returns `EXIT_SUCCESS` (0), not a non-zero
status.  Second conjunct: a debugger initialization failure does exit with
`EXIT_FAILURE` (1).  Third conjunct: a run whose only line fails to resolve
still exits 0 with the failure counted. -/
theorem c9_exit_status_code_eval :
    (mainModel (fun _ _ => some "a+0x0")
        ⟨"in", "out.txt", "dump.dmp", 0, 20000000, TraceStyle_t.FullSymbol,
          false, false⟩
        ⟨[("out.txt", "old"), ("in/t.trace", "10\n")], [("in", ["t.trace"])]⟩
        true).exitCode = 0 ∧
      (mainModel (fun _ _ => some "a+0x0")
        ⟨"in", "out.txt", "dump.dmp", 0, 20000000, TraceStyle_t.FullSymbol,
          false, false⟩
        ⟨[("out.txt", "old"), ("in/t.trace", "10\n")], [("in", ["t.trace"])]⟩
        false).exitCode = 1 ∧
      mainModel (fun _ _ => none)
        ⟨"in/t.trace", "", "dump.dmp", 0, 20000000, TraceStyle_t.FullSymbol,
          false, false⟩
        ⟨[("in/t.trace", "10\n")], []⟩ true =
        ⟨0, ⟨[("in/t.trace", "10\n")], []⟩, 0, 1, 1⟩ := by
  decide
